import Mathlib

/-!
Verification of the replay-buffer / TD-target / updater core of the Pearl
reinforcement-learning library, via a shallow embedding of the Python source
into Lean.

Conventions of the embedding:
* numpy arrays storing per-slot data become functions from slot index to the
  stored value (a scalar per slot stands in for the per-slot tensor);
* the buffer object becomes an explicit `Buffer` state record; methods become
  pure functions taking and returning the state;
* `np.random.randint(low, high, size)` becomes `randint`, parametrised by an
  oracle of raw draws; it validates `low < high` exactly as numpy does and
  fails (returns `none`, numpy raises `ValueError`) otherwise;
* torch optimizer calls in `run_optimizer` are opaque external effects; the
  verifiable content is which calls happen and in what order, so they are
  embedded as a trace of events.
-/

/-- One environment transition's scalar payloads, as passed to
`ReplayBuffer.add_trajectory` in `anvil/buffers/replay_buffer.py`. -/
structure Transition where
  observation : ℚ
  action : ℚ
  reward : ℚ
  next_observation : ℚ
  done : ℚ
deriving DecidableEq

/-- State of `ReplayBuffer` (fields inherited from `BaseBuffer`): capacity
`buffer_size`, write cursor `pos`, wrap flag `full`, and the parallel storage
arrays, embedded as functions from slot index to stored scalar. -/
structure Buffer where
  buffer_size : ℕ
  pos : ℕ
  full : Bool
  observations : ℕ → ℚ
  actions : ℕ → ℚ
  rewards : ℕ → ℚ
  dones : ℕ → ℚ

/-- A freshly constructed buffer of capacity `C`: cursor at 0, not full,
arrays zero-initialised (numpy `np.zeros`). -/
def freshBuffer (C : ℕ) : Buffer :=
  { buffer_size := C
    pos := 0
    full := false
    observations := fun _ => 0
    actions := fun _ => 0
    rewards := fun _ => 0
    dones := fun _ => 0 }

/-- `ReplayBuffer.add_trajectory` (replay_buffer.py lines 41-58): write
observation at `pos`, then next_observation at `(pos + 1) % buffer_size`
(so on a capacity-1 buffer the second write lands on the same slot and wins,
exactly as in the source), write action/reward/done at `pos`, advance `pos`,
and when it reaches `buffer_size` set `full` and wrap `pos` to 0. -/
def add_trajectory (b : Buffer) (t : Transition) : Buffer :=
  if b.pos + 1 = b.buffer_size then
    { b with
      observations :=
        Function.update (Function.update b.observations b.pos t.observation)
          ((b.pos + 1) % b.buffer_size) t.next_observation
      actions := Function.update b.actions b.pos t.action
      rewards := Function.update b.rewards b.pos t.reward
      dones := Function.update b.dones b.pos t.done
      pos := 0
      full := true }
  else
    { b with
      observations :=
        Function.update (Function.update b.observations b.pos t.observation)
          ((b.pos + 1) % b.buffer_size) t.next_observation
      actions := Function.update b.actions b.pos t.action
      rewards := Function.update b.rewards b.pos t.reward
      dones := Function.update b.dones b.pos t.done
      pos := b.pos + 1 }

/-- A sequence of `add_trajectory` calls, oldest first. -/
def add_trajectories (b : Buffer) (ts : List Transition) : Buffer :=
  ts.foldl add_trajectory b

/-- `np.random.randint(low, high, size)` with an oracle `draws` of raw random
numbers: numpy first validates `low < high` (raising `ValueError: low >= high`
otherwise, embedded as `none`), then returns `size` values each in
`[low, high)`. Any list of values in that range is realisable by some oracle. -/
def randint (low high size : ℕ) (draws : ℕ → ℕ) : Option (List ℕ) :=
  if low < high then
    some ((List.range size).map fun j => low + draws j % (high - low))
  else
    none

/-- The batch-index computation of `ReplayBuffer.sample` (replay_buffer.py
lines 65-70): if `full`, draw from `[1, buffer_size)` then offset by `pos`
modulo `buffer_size`; otherwise draw from `[0, pos)`. -/
def sampleIndices (b : Buffer) (batch_size : ℕ) (draws : ℕ → ℕ) :
    Option (List ℕ) :=
  if b.full then
    (randint 1 b.buffer_size batch_size draws).map
      (List.map fun x => (x + b.pos) % b.buffer_size)
  else
    randint 0 b.pos batch_size draws

/-- The structured batch returned by `ReplayBuffer.sample`
(`Trajectories` in anvil/common/type_aliases). -/
structure Batch where
  observations : List ℚ
  actions : List ℚ
  rewards : List ℚ
  next_observations : List ℚ
  dones : List ℚ
deriving DecidableEq

/-- `ReplayBuffer.sample` (replay_buffer.py lines 60-92): compute batch
indices, then gather `observations`, `actions`, `rewards`, `dones` at those
indices and `next_observations` at the successor indices
`(i + 1) % buffer_size`. The method body never assigns to any buffer field,
so the state component of the result is the input state; a `none` batch is a
propagated numpy error. -/
def sample (b : Buffer) (batch_size : ℕ) (draws : ℕ → ℕ) :
    Buffer × Option Batch :=
  match sampleIndices b batch_size draws with
  | none => (b, none)
  | some inds =>
      (b, some
        { observations := inds.map b.observations
          actions := inds.map b.actions
          rewards := inds.map b.rewards
          next_observations :=
            inds.map fun i => b.observations ((i + 1) % b.buffer_size)
          dones := inds.map b.dones })

/-- A concrete full buffer used by witnesses: capacity 3, cursor at 1,
wrapped. -/
def fullBuffer3 : Buffer :=
  { buffer_size := 3
    pos := 1
    full := true
    observations := fun _ => 7
    actions := fun _ => 0
    rewards := fun _ => 0
    dones := fun _ => 0 }

/-- A concrete partially-filled buffer used by witnesses: capacity 4,
two slots written. -/
def partialBuffer4 : Buffer :=
  { buffer_size := 4
    pos := 2
    full := false
    observations := fun i => (i : ℚ)
    actions := fun _ => 0
    rewards := fun _ => 0
    dones := fun _ => 0 }

lemma sampleIndices_full_mem (b : Buffer) (batch_size : ℕ) (draws : ℕ → ℕ)
    (inds : List ℕ) (i : ℕ) (hfull : b.full = true)
    (hinds : sampleIndices b batch_size draws = some inds) (hi : i ∈ inds) :
    ∃ x, 1 ≤ x ∧ x < b.buffer_size ∧ i = (x + b.pos) % b.buffer_size := by
  unfold sampleIndices randint at hinds
  rw [hfull] at hinds
  simp only [if_true] at hinds
  by_cases hC : 1 < b.buffer_size
  · rw [if_pos hC] at hinds
    simp only [Option.map_some', Option.some.injEq] at hinds
    subst hinds
    simp only [List.mem_map, List.mem_range] at hi
    obtain ⟨x, ⟨j, _, hjx⟩, hxi⟩ := hi
    refine ⟨x, ?_, ?_, hxi.symm⟩
    · omega
    · have : draws j % (b.buffer_size - 1) < b.buffer_size - 1 :=
        Nat.mod_lt _ (by omega)
      omega
  · rw [if_neg hC] at hinds
    simp at hinds

/-- Claim C1: for every buffer state with `full = true` and every batch size,
every index produced by `sample` (computed as a `randint` draw from
`[1, buffer_size)` plus `pos`, modulo `buffer_size`) differs from the current
write cursor position `pos`. -/
theorem sample_full_excludes_pos (b : Buffer) (batch_size : ℕ) (draws : ℕ → ℕ)
    (inds : List ℕ) (i : ℕ) (hfull : b.full = true)
    (hinds : sampleIndices b batch_size draws = some inds) (hi : i ∈ inds) :
    i ≠ b.pos := by
  obtain ⟨x, hx1, hx2, hxi⟩ :=
    sampleIndices_full_mem b batch_size draws inds i hfull hinds hi
  intro hip
  rw [hip] at hxi
  have hCpos : 0 < b.buffer_size := by omega
  have hiC : (x + b.pos) % b.buffer_size < b.buffer_size := Nat.mod_lt _ hCpos
  rcases Nat.lt_or_ge (x + b.pos) b.buffer_size with h | h
  · rw [Nat.mod_eq_of_lt h] at hxi
    omega
  · have hsub : x + b.pos - b.buffer_size < b.buffer_size := by omega
    rw [Nat.mod_eq_sub_mod h, Nat.mod_eq_of_lt hsub] at hxi
    omega

theorem sample_full_excludes_pos_witness : (2 : ℕ) ≠ fullBuffer3.pos :=
  sample_full_excludes_pos fullBuffer3 1 (fun _ => 0) [2] 2 rfl (by decide)
    (by decide)

/-- Claim C6: for every buffer state with `full = false` and `pos ≥ 1`, every
index produced by `sample` lies in `[0, pos)`, so only written slots are
sampled. -/
theorem sample_not_full_in_range (b : Buffer) (batch_size : ℕ) (draws : ℕ → ℕ)
    (inds : List ℕ) (i : ℕ) (hfull : b.full = false) (hpos : 1 ≤ b.pos)
    (hinds : sampleIndices b batch_size draws = some inds) (hi : i ∈ inds) :
    i < b.pos := by
  unfold sampleIndices randint at hinds
  rw [hfull] at hinds
  simp only [Bool.false_eq_true, if_false] at hinds
  rw [if_pos (by omega : 0 < b.pos)] at hinds
  simp only [Option.some.injEq] at hinds
  subst hinds
  simp only [List.mem_map, List.mem_range, Nat.sub_zero, Nat.zero_add] at hi
  obtain ⟨j, _, hj⟩ := hi
  have : draws j % b.pos < b.pos := Nat.mod_lt _ (by omega)
  omega

theorem sample_not_full_in_range_witness : (1 : ℕ) < partialBuffer4.pos :=
  sample_not_full_in_range partialBuffer4 1 (fun _ => 5) [1] 1 rfl (by decide)
    (by decide) (by decide)

/-- Claim C7, counterexample: on an empty buffer (`full = false`, `pos = 0`)
`sample` does not succeed with an undefined-but-present result; the
`np.random.randint(0, 0, ...)` call fails (numpy raises
`ValueError: low >= high`), so no batch at all is produced. -/
theorem sample_empty_counterexample :
    ¬ (sample (freshBuffer 4) 1 (fun _ => 0)).2.isSome = true := by decide

/-- Claim C7, amended: calling `sample` on a buffer before any data has been
written (`full = false`, `pos = 0`) fails with an error raised inside
`np.random.randint` (its `low >= high` validation), not by any explicit
emptiness check in the buffer code itself; no batch is returned. -/
theorem sample_empty_fails (b : Buffer) (batch_size : ℕ) (draws : ℕ → ℕ)
    (hfull : b.full = false) (hpos : b.pos = 0) :
    (sample b batch_size draws).2 = none := by
  unfold sample sampleIndices randint
  rw [hfull, hpos]
  simp

theorem sample_empty_fails_witness :
    (sample (freshBuffer 4) 1 (fun _ => 0)).2 = none :=
  sample_empty_fails (freshBuffer 4) 1 (fun _ => 0) rfl rfl

/-- Claim C10: `sample` is read-only: the buffer state (capacity, `pos`,
`full`, and all storage arrays) is unchanged by the call, whether or not it
succeeds. -/
theorem sample_preserves_state (b : Buffer) (batch_size : ℕ) (draws : ℕ → ℕ) :
    (sample b batch_size draws).1 = b := by
  unfold sample
  cases sampleIndices b batch_size draws <;> rfl

@[simp] lemma freshBuffer_pos (C : ℕ) : (freshBuffer C).pos = 0 := rfl

@[simp] lemma freshBuffer_full (C : ℕ) : (freshBuffer C).full = false := rfl

@[simp] lemma freshBuffer_size (C : ℕ) : (freshBuffer C).buffer_size = C := rfl

lemma add_trajectory_buffer_size (b : Buffer) (t : Transition) :
    (add_trajectory b t).buffer_size = b.buffer_size := by
  unfold add_trajectory
  split <;> rfl

lemma add_trajectory_pos_eq (b : Buffer) (t : Transition)
    (h : b.pos + 1 = b.buffer_size) :
    (add_trajectory b t).full = true ∧ (add_trajectory b t).pos = 0 := by
  unfold add_trajectory
  rw [if_pos h]
  exact ⟨rfl, rfl⟩

lemma add_trajectory_pos_ne (b : Buffer) (t : Transition)
    (h : b.pos + 1 ≠ b.buffer_size) :
    (add_trajectory b t).full = b.full ∧ (add_trajectory b t).pos = b.pos + 1 := by
  unfold add_trajectory
  rw [if_neg h]
  exact ⟨rfl, rfl⟩

lemma add_trajectories_below (ts : List Transition) (b : Buffer)
    (h : b.pos + ts.length < b.buffer_size) :
    (add_trajectories b ts).pos = b.pos + ts.length
    ∧ (add_trajectories b ts).full = b.full
    ∧ (add_trajectories b ts).buffer_size = b.buffer_size := by
  induction ts generalizing b with
  | nil => simp [add_trajectories]
  | cons t ts ih =>
    simp only [List.length_cons] at h
    have hne : b.pos + 1 ≠ b.buffer_size := by omega
    obtain ⟨hfull, hpos⟩ := add_trajectory_pos_ne b t hne
    have hsz := add_trajectory_buffer_size b t
    have hstep : add_trajectories b (t :: ts)
        = add_trajectories (add_trajectory b t) ts := rfl
    rw [hstep]
    obtain ⟨ih1, ih2, ih3⟩ := ih (add_trajectory b t) (by rw [hpos, hsz]; omega)
    refine ⟨?_, ?_, ?_⟩
    · rw [ih1, hpos]; simp only [List.length_cons]; omega
    · rw [ih2, hfull]
    · rw [ih3, hsz]

lemma add_trajectories_reach_capacity (ts : List Transition) (b : Buffer)
    (hlen : 1 ≤ ts.length) (h : b.pos + ts.length = b.buffer_size) :
    (add_trajectories b ts).full = true ∧ (add_trajectories b ts).pos = 0 := by
  induction ts generalizing b with
  | nil => simp at hlen
  | cons t ts ih =>
    have hstep : add_trajectories b (t :: ts)
        = add_trajectories (add_trajectory b t) ts := rfl
    cases ts with
    | nil =>
      simp only [List.length_cons, List.length_nil] at h
      obtain ⟨hfull, hpos⟩ := add_trajectory_pos_eq b t (by omega)
      rw [hstep]
      exact ⟨hfull, hpos⟩
    | cons t2 ts2 =>
      simp only [List.length_cons] at h
      have hne : b.pos + 1 ≠ b.buffer_size := by omega
      obtain ⟨_, hpos⟩ := add_trajectory_pos_ne b t hne
      have hsz := add_trajectory_buffer_size b t
      rw [hstep]
      exact ih (add_trajectory b t)
        (by simp only [List.length_cons]; omega)
        (by rw [hpos, hsz]; simp only [List.length_cons] at *; omega)

/-- Claim C2: `add_trajectory` writes `next_observation` at
`(pos + 1) % buffer_size`, writes observation (when that slot is distinct,
i.e. capacity is at least 2), action, reward and done at `pos`, then advances
`pos`, setting `full` and wrapping `pos` to 0 exactly when the advanced cursor
reaches `buffer_size`; consequently after exactly `buffer_size` insertions
into a fresh buffer of positive capacity, `full` is true and `pos` is 0. -/
theorem add_trajectory_spec (b : Buffer) (t : Transition) (C : ℕ)
    (hC : 0 < C) :
    (add_trajectory b t).observations ((b.pos + 1) % b.buffer_size)
      = t.next_observation
    ∧ (b.pos ≠ (b.pos + 1) % b.buffer_size →
        (add_trajectory b t).observations b.pos = t.observation)
    ∧ (add_trajectory b t).actions b.pos = t.action
    ∧ (add_trajectory b t).rewards b.pos = t.reward
    ∧ (add_trajectory b t).dones b.pos = t.done
    ∧ (b.pos + 1 = b.buffer_size →
        (add_trajectory b t).full = true ∧ (add_trajectory b t).pos = 0)
    ∧ (b.pos + 1 ≠ b.buffer_size →
        (add_trajectory b t).full = b.full
        ∧ (add_trajectory b t).pos = b.pos + 1)
    ∧ ((add_trajectories (freshBuffer C) (List.replicate C t)).full = true
        ∧ (add_trajectories (freshBuffer C) (List.replicate C t)).pos = 0) := by
  refine ⟨?_, ?_, ?_, ?_, ?_, add_trajectory_pos_eq b t,
    add_trajectory_pos_ne b t, ?_⟩
  · unfold add_trajectory
    split <;> simp [Function.update_same]
  · intro hne
    unfold add_trajectory
    split <;> simp [Function.update_noteq hne, Function.update_same]
  · unfold add_trajectory
    split <;> simp [Function.update_same]
  · unfold add_trajectory
    split <;> simp [Function.update_same]
  · unfold add_trajectory
    split <;> simp [Function.update_same]
  · exact add_trajectories_reach_capacity (List.replicate C t) (freshBuffer C)
      (by simpa using hC) (by simp [freshBuffer])

theorem add_trajectory_spec_witness :
    (add_trajectory partialBuffer4 ⟨1, 2, 3, 4, 5⟩).full = partialBuffer4.full
    ∧ (add_trajectory partialBuffer4 ⟨1, 2, 3, 4, 5⟩).pos
        = partialBuffer4.pos + 1 :=
  (add_trajectory_spec partialBuffer4 ⟨1, 2, 3, 4, 5⟩ 3
    (by decide)).2.2.2.2.2.2.1 (by decide)

/-- Claim C3, counterexample: the claim allows `n = buffer_size`, but with
capacity 1 a single insertion sets `full = true` and wraps `pos` to 0,
not `full = false` with `pos = 1`. -/
theorem add_up_to_capacity_counterexample :
    ¬ ((add_trajectories (freshBuffer 1) [⟨1, 2, 3, 4, 5⟩]).full = false
       ∧ (add_trajectories (freshBuffer 1) [⟨1, 2, 3, 4, 5⟩]).pos = 1) := by
  simp [add_trajectories, add_trajectory, freshBuffer]

/-- Claim C3, amended: for every sequence of `n` insertions into a fresh
buffer with `n` strictly below the capacity (`n < buffer_size`), afterwards
`full` is still false and `pos` equals `n`, the insertion count. (At
`n = buffer_size` exactly, `full` becomes true and `pos` wraps to 0.) -/
theorem add_below_capacity (C n : ℕ) (ts : List Transition)
    (hlen : ts.length = n) (h : n < C) :
    (add_trajectories (freshBuffer C) ts).full = false
    ∧ (add_trajectories (freshBuffer C) ts).pos = n := by
  obtain ⟨h1, h2, _⟩ := add_trajectories_below ts (freshBuffer C)
    (by simp only [freshBuffer_pos, freshBuffer_size]; omega)
  refine ⟨by rw [h2]; rfl, ?_⟩
  rw [h1, hlen]
  simp

theorem add_below_capacity_witness :
    (add_trajectories (freshBuffer 3) [⟨1, 2, 3, 4, 5⟩, ⟨6, 7, 8, 9, 0⟩]).full
      = false
    ∧ (add_trajectories (freshBuffer 3)
        [⟨1, 2, 3, 4, 5⟩, ⟨6, 7, 8, 9, 0⟩]).pos = 2 :=
  add_below_capacity 3 2 [⟨1, 2, 3, 4, 5⟩, ⟨6, 7, 8, 9, 0⟩] (by decide)
    (by decide)

/-- Claim C5: the batch returned by `sample` satisfies the aliasing
invariant: aligned with the sampled index list, the `next_observations` entry
for a sampled index `i` is the stored `observations` entry at
`(i + 1) % buffer_size` (and the `observations` entry is the one at `i`). -/
theorem sample_next_obs_alias (b : Buffer) (batch_size : ℕ) (draws : ℕ → ℕ)
    (inds : List ℕ) (batch : Batch)
    (hinds : sampleIndices b batch_size draws = some inds)
    (hbatch : (sample b batch_size draws).2 = some batch) (j : ℕ) :
    batch.next_observations.get? j
      = (inds.get? j).map (fun i => b.observations ((i + 1) % b.buffer_size))
    ∧ batch.observations.get? j = (inds.get? j).map b.observations := by
  unfold sample at hbatch
  rw [hinds] at hbatch
  simp only [Option.some.injEq] at hbatch
  subst hbatch
  exact ⟨List.get?_map _ _ _, List.get?_map _ _ _⟩

theorem sample_next_obs_alias_witness :
    ((({ observations := [7], actions := [0], rewards := [0],
         next_observations := [7], dones := [0] } : Batch).next_observations.get?
        0)
      = (([2] : List ℕ).get? 0).map
          (fun i => fullBuffer3.observations ((i + 1) % fullBuffer3.buffer_size)))
    ∧ (({ observations := [7], actions := [0], rewards := [0],
          next_observations := [7], dones := [0] } : Batch).observations.get? 0
        = (([2] : List ℕ).get? 0).map fullBuffer3.observations) :=
  sample_next_obs_alias fullBuffer3 1 (fun _ => 0) [2]
    { observations := [7], actions := [0], rewards := [0],
      next_observations := [7], dones := [0] } (by decide) (by decide) 0

/-- Modelled from the spec: `TD_zero` — its implementation (imported in
dqn.py from `signal_processing` and exercised by `test_TD_zero`) is not in
the corpus. Per the spec, the TD-zero target is
`reward + gamma * (1 - done) * next_value`, computed elementwise over the
batch. -/
def TD_zero (rewards next_values dones : List ℚ) (gamma : ℚ) : List ℚ :=
  match rewards, next_values, dones with
  | r :: rs, v :: vs, d :: ds =>
      (r + gamma * (1 - d) * v) :: TD_zero rs vs ds gamma
  | _, _, _ => []

/-- Modelled from the spec: the `TD_zero` call with `gamma` left at its
default value of 1. -/
def TD_zero_default (rewards next_values dones : List ℚ) : List ℚ :=
  TD_zero rewards next_values dones 1

lemma TD_zero_getD (rewards : List ℚ) :
    ∀ (next_values dones : List ℚ) (gamma : ℚ) (j : ℕ),
      next_values.length = rewards.length → dones.length = rewards.length →
      j < rewards.length →
      (TD_zero rewards next_values dones gamma).getD j 0
        = rewards.getD j 0
          + gamma * (1 - dones.getD j 0) * next_values.getD j 0 := by
  induction rewards with
  | nil =>
    intro next_values dones gamma j _ _ hj
    simp at hj
  | cons r rs ih =>
    intro next_values dones gamma j hl1 hl2 hj
    cases next_values with
    | nil => simp at hl1
    | cons v vs =>
      cases dones with
      | nil => simp at hl2
      | cons d ds =>
        cases j with
        | zero => simp [TD_zero]
        | succ j =>
          simp only [TD_zero, List.getD_cons_succ]
          exact ih vs ds gamma j (by simpa using hl1) (by simpa using hl2)
            (by simpa using hj)

/-- Claim C4: the TD-zero target is `reward + gamma * (1 - done) * next_value`
elementwise (gamma defaulting to 1); with gamma = 1, rewards and next values
all 1 and dones all 0 every target is 2; and for an element with done = 1 the
target is the reward alone. -/
theorem TD_zero_spec (rewards next_values dones : List ℚ) (gamma : ℚ) (j : ℕ)
    (hl1 : next_values.length = rewards.length)
    (hl2 : dones.length = rewards.length) (hj : j < rewards.length) :
    (TD_zero rewards next_values dones gamma).getD j 0
      = rewards.getD j 0 + gamma * (1 - dones.getD j 0) * next_values.getD j 0
    ∧ (dones.getD j 0 = 1 →
        (TD_zero rewards next_values dones gamma).getD j 0 = rewards.getD j 0)
    ∧ TD_zero_default (List.replicate 3 1) (List.replicate 3 1)
        (List.replicate 3 0) = [2, 2, 2] := by
  have h := TD_zero_getD rewards next_values dones gamma j hl1 hl2 hj
  refine ⟨h, ?_, ?_⟩
  · intro hd
    rw [h, hd]
    ring
  · show TD_zero [1, 1, 1] [1, 1, 1] [0, 0, 0] 1 = [2, 2, 2]
    norm_num [TD_zero]

theorem TD_zero_spec_witness :
    (TD_zero [3, 5] [7, 11] [0, 1] 1).getD 1 0
      = ([3, 5] : List ℚ).getD 1 0
        + 1 * (1 - ([0, 1] : List ℚ).getD 1 0) * ([7, 11] : List ℚ).getD 1 0 :=
  (TD_zero_spec [3, 5] [7, 11] [0, 1] 1 1 (by decide) (by decide)
    (by decide)).1

/-- The torch calls performed during one optimization step, embedded as
trace events. -/
inductive OptEvent where
  | zero_grad
  | backward
  | clip_grad_norm
  | step
deriving DecidableEq

/-- `BaseDeepUpdater.run_optimizer` (environment.py lines 23-34): zero the
gradients, backpropagate the loss, clip the gradient norm exactly when
`max_grad > 0`, then apply the parameter update. -/
def run_optimizer (max_grad : ℚ) : List OptEvent :=
  [OptEvent.zero_grad, OptEvent.backward]
    ++ (if 0 < max_grad then [OptEvent.clip_grad_norm] else [])
    ++ [OptEvent.step]

/-- The `UpdaterLog` returned by an updater call, reduced to the loss it
carries. -/
structure UpdaterLog where
  loss : ℚ
deriving DecidableEq

/-- `loss.detach().item()`: detaching from the autograd graph leaves the
scalar value unchanged. -/
def detachItem (x : ℚ) : ℚ := x

/-- `DeepRegression.__call__` (environment.py lines 66-88): compute the loss
of the model's predictions against the targets, run one optimization step,
and return an `UpdaterLog` carrying the detached scalar loss. The model
forward pass and the loss criterion are opaque numeric functions. -/
def deepRegressionCall (lossFn modelFn : ℚ → ℚ → ℚ) (max_grad : ℚ)
    (observations actions targets : ℚ) : List OptEvent × UpdaterLog :=
  (run_optimizer max_grad,
   { loss := detachItem (lossFn (modelFn observations actions) targets) })

/-- Claim C8: a regression-updater call performs, in order, zero-grad,
backward, gradient-norm clipping exactly when the configured `max_grad` is
strictly positive, then the optimizer step; and it returns a log carrying the
detached scalar loss value. -/
theorem deepRegression_spec (lossFn modelFn : ℚ → ℚ → ℚ)
    (max_grad observations actions targets : ℚ) :
    ((deepRegressionCall lossFn modelFn max_grad observations actions
        targets).1
      = if 0 < max_grad then
          [OptEvent.zero_grad, OptEvent.backward, OptEvent.clip_grad_norm,
           OptEvent.step]
        else [OptEvent.zero_grad, OptEvent.backward, OptEvent.step])
    ∧ (OptEvent.clip_grad_norm
        ∈ (deepRegressionCall lossFn modelFn max_grad observations actions
            targets).1
        ↔ 0 < max_grad)
    ∧ (deepRegressionCall lossFn modelFn max_grad observations actions
        targets).2.loss
      = detachItem (lossFn (modelFn observations actions) targets) := by
  by_cases h : 0 < max_grad
  · refine ⟨?_, ?_, rfl⟩
    · simp [deepRegressionCall, run_optimizer, h]
    · simp [deepRegressionCall, run_optimizer, h]
  · refine ⟨?_, ?_, rfl⟩
    · simp [deepRegressionCall, run_optimizer, h]
    · simp [deepRegressionCall, run_optimizer, h]

/-- The online and target critic parameter vectors of
`ActorCriticWithCriticTarget`. -/
structure CriticPair where
  online_params : List ℚ
  target_params : List ℚ
deriving DecidableEq

/-- Modelled from the spec: `assign_targets` — the model class implementing
it is not in the corpus (only its caller `DQN._fit`). Per the spec it is a
hard synchronization: the online critic's parameters are copied
parameter-for-parameter onto the target critic. -/
def assign_targets (m : CriticPair) : CriticPair :=
  { m with target_params := m.online_params }

/-- Modelled from the spec: one gradient update produced by the critic
updater. The updater is handed only the online critic, so it transforms the
online parameters and cannot touch the target parameters. -/
def gradient_step (upd : List ℚ → List ℚ) (m : CriticPair) : CriticPair :=
  { m with online_params := upd m.online_params }

/-- `DQN._fit` (dqn.py lines 98-124) at the parameter level: `critic_epochs`
updater steps on the online critic followed by one `assign_targets`. -/
def fit_params (upd : List ℚ → List ℚ) (critic_epochs : ℕ) (m : CriticPair) :
    CriticPair :=
  assign_targets ((gradient_step upd)^[critic_epochs] m)

/-- Claim C9: after the synchronization operation every target-critic
parameter equals the corresponding online-critic parameter exactly; a
gradient step never changes the target parameters, so across a `_fit` round
the target critic is mutated only by the final synchronization and ends equal
to the online critic. -/
theorem assign_targets_spec (m : CriticPair) (upd : List ℚ → List ℚ)
    (critic_epochs : ℕ) :
    (assign_targets m).target_params = (assign_targets m).online_params
    ∧ (gradient_step upd m).target_params = m.target_params
    ∧ (fit_params upd critic_epochs m).target_params
        = (fit_params upd critic_epochs m).online_params :=
  ⟨rfl, rfl, rfl⟩
